import Mathlib

/-!
Thermal digital twin — snapshot pipeline, verified embedding.

A shallow embedding of the snapshot pipeline of `streamlit_app.py`:
the fixed zone catalog, the CSV loader (`load_dataset`), the status
classification (`temp_status`) and display colouring (`status_color`),
the synthetic fallback data generator, and the latest-snapshot
derivation (`df.sort_values("timestamp").groupby("zone").last()`
reindexed by the zone catalog).

Numeric readings (temperature, UV index) are modelled as rationals.
Instants are modelled as integers counting whole hours, matching the
hour-floored timestamps the script works with. Transcendental floating
point functions (`math.sin`, `math.pi`) and the random noise draws
(`np.random.normal`) are modelled as oracle parameters, since the
claims under verification do not depend on their values.
-/

namespace ThermalTwin

/-- One observation, as a row of the script's dataframe:
`{"timestamp": ts, "zone": z, "temp": temp, "uv": uv}`. -/
structure Reading where
  timestamp : Int
  zone : String
  temp : ℚ
  uv : ℚ
deriving Repr, DecidableEq

/-- The fixed zone catalog, `ZONES` in `streamlit_app.py`. -/
def ZONES : List String :=
  ["Main Parking Lot", "Academic Block A", "Academic Block B",
   "Boys Hostel 1", "Boys Hostel 2", "Girls Hostel",
   "Sports Stadium", "Central Library", "Green Quad", "Food Court"]

/-- `temp_status` of `streamlit_app.py` (the spec's `classify`):
`if temp > 40: return "Hotspot"`, `if temp > 36: return "Medium"`,
`return "Safe"`. -/
def temp_status (temp : ℚ) : String :=
  if temp > 40 then "Hotspot"
  else if temp > 36 then "Medium"
  else "Safe"

/-- `status_color` of `streamlit_app.py`: four colour bands, with an
extra severity tier above 45 inside the hotspot band. -/
def status_color (temp : ℚ) : String :=
  if temp > 45 then "#b21010"
  else if temp > 40 then "#ff6b00"
  else if temp > 36 then "#ffd54f"
  else "#2E7D32"

/-- Row order used by `df.sort_values("timestamp")`: ascending timestamp. -/
def leTs (a b : Reading) : Prop := a.timestamp ≤ b.timestamp

instance : DecidableRel leTs := fun a b => Int.decLe a.timestamp b.timestamp

instance : IsTotal Reading leTs := ⟨fun a b => Int.le_total a.timestamp b.timestamp⟩

instance : IsTrans Reading leTs := ⟨fun _ _ _ h1 h2 => le_trans h1 h2⟩

/-- `df.sort_values("timestamp")`, modelled as a stable ascending sort on
the timestamp column (rows with equal timestamps keep arrival order). -/
def sort_values (s : List Reading) : List Reading := s.insertionSort leTs

/-- `.groupby("zone").last()` applied to the timestamp-sorted frame, for
one zone: the group of rows of that zone, in sorted order, reduced to its
last row (rows carry no missing values, so the per-column last non-null
entry is the last row of the group). `none` when the zone has no rows. -/
def groupby_last (s : List Reading) (z : String) : Option Reading :=
  ((sort_values s).filter (fun r => r.zone == z)).getLast?

/-- Direct recursive characterisation of `groupby_last`: among the
readings of zone `z`, the one with the maximal timestamp, a later arrival
winning ties. Used as a proof vehicle; `groupby_last_eq_lastMax` shows it
agrees with the sort-then-last computation of the source. -/
def lastMax (z : String) : List Reading → Option Reading
  | [] => none
  | r :: s =>
    match lastMax z s with
    | none => if r.zone == z then some r else none
    | some b => if r.zone == z && decide (b.timestamp < r.timestamp) then some r else some b

/-- One row of the `latest` snapshot frame after
`.set_index("zone").reindex(ZONES)`: zones absent from the series get a
row of missing values (`none` fields). The `status` column is computed
with `temp_status` on the rows that have data (line 160 of the source)
before the reindex, so a missing zone has an absent status as well. -/
structure ZoneSnapshot where
  zone : String
  temp : Option ℚ
  uv : Option ℚ
  timestamp : Option Int
  status : Option String
deriving Repr, DecidableEq

/-- The snapshot row of one catalog zone: the fields of the zone's most
recent reading plus its derived status, or all-absent fields when the
zone has no reading. -/
def mkSnapshot (s : List Reading) (z : String) : ZoneSnapshot :=
  match groupby_last s z with
  | some r =>
      ZoneSnapshot.mk z (some r.temp) (some r.uv) (some r.timestamp)
        (some (temp_status r.temp))
  | none => ZoneSnapshot.mk z none none none none

/-- The spec's `derive_snapshot`, lines 159–161 of the source: sort by
timestamp, group by zone, take the last row per group, attach the status,
then reindex on the catalog — one snapshot per catalog zone, in catalog
order; readings of zones outside the catalog are dropped by the reindex. -/
def derive_snapshot (s : List Reading) (zones : List String) : List ZoneSnapshot :=
  zones.map (mkSnapshot s)

/-- A cell of a loaded dataframe column: either a parsed number or the
raw string (pandas object dtype), depending on whether the whole column
converted. -/
inductive Cell where
  | num : ℚ → Cell
  | str : String → Cell
deriving Repr, DecidableEq

/-- A parsed row of `pd.read_csv("thermal_data.csv", parse_dates=["timestamp"])`.
Instants are modelled as numbers (hours), so the timestamp column is a
numeric column like the others; the zone column is kept as text, which is
how the script consumes it. -/
structure CsvRow where
  timestamp : Cell
  zone : String
  temp : Cell
  uv : Cell
deriving Repr, DecidableEq

/-- Digits of a numeric cell, most significant first, accumulated into a
natural number; `none` on any non-digit character. -/
def digitsToNat (acc : Nat) : List Char → Option Nat
  | [] => some acc
  | c :: cs => if c.isDigit then digitsToNat (10 * acc + (c.toNat - 48)) cs else none

/-- A non-empty all-digit character string as a natural number. -/
def parseNatDigits (cs : List Char) : Option Nat :=
  if cs.isEmpty then none else digitsToNat 0 cs

/-- An unsigned decimal literal `digits[.digits]` as a rational. -/
def parseDecimal (cs : List Char) : Option ℚ :=
  match cs.span (fun c => c != '.') with
  | (ip, []) => (parseNatDigits ip).map (fun n => (n : ℚ))
  | (ip, _ :: fp) =>
    match parseNatDigits ip, parseNatDigits fp with
    | some n, some f => some ((n : ℚ) + (f : ℚ) / ((10 : ℚ) ^ fp.length))
    | _, _ => none

/-- Model of the numeric parsing pandas applies to a cell while inferring
a column dtype: an optionally signed decimal literal; any other content
fails. The same parse models `parse_dates` on the timestamp column, whose
instants are represented as numbers. -/
def parseRat (cell : String) : Option ℚ :=
  match cell.toList with
  | '-' :: cs => (parseDecimal cs).map (fun q => -q)
  | '+' :: cs => parseDecimal cs
  | cs => parseDecimal cs

/-- Whether a whole column converts to numbers (pandas dtype inference and
`parse_dates` are per-column, all-or-nothing: one bad cell keeps the whole
column as strings). -/
def colNumeric (cells : List String) : Bool :=
  cells.all (fun c => (parseRat c).isSome)

/-- A cell of a column: parsed when the whole column converted, the raw
string otherwise. -/
def toCell (allNum : Bool) (cell : String) : Cell :=
  if allNum then
    match parseRat cell with
    | some q => Cell.num q
    | none => Cell.str cell
  else Cell.str cell

/-- Model of `pd.read_csv(path, parse_dates=["timestamp"])`. The source
file is `none` when missing (raising `FileNotFoundError`), otherwise the
tokenized rows below the header, each a list of cell strings for the
columns `timestamp, zone, temp, uv`. A row whose field count differs from
the header's four raises a tokenizing `ParserError`; otherwise every row
is returned, with each numeric-capable column converted cell by cell and
any column containing a malformed cell kept whole as strings. -/
def read_csv (src : Option (List (List String))) : Except String (List CsvRow) :=
  match src with
  | none => Except.error "FileNotFoundError"
  | some rows =>
    if rows.all (fun r => r.length == 4) then
      let tsNum := colNumeric (rows.map (fun r => r.getD 0 ""))
      let tempNum := colNumeric (rows.map (fun r => r.getD 2 ""))
      let uvNum := colNumeric (rows.map (fun r => r.getD 3 ""))
      Except.ok (rows.map (fun r =>
        CsvRow.mk (toCell tsNum (r.getD 0 "")) (r.getD 1 "")
          (toCell tempNum (r.getD 2 "")) (toCell uvNum (r.getD 3 ""))))
    else
      Except.error "ParserError"

instance {ε α : Type} [DecidableEq ε] [DecidableEq α] : DecidableEq (Except ε α)
  | Except.ok a, Except.ok b =>
      if h : a = b then isTrue (by rw [h]) else isFalse (fun he => h (Except.ok.inj he))
  | Except.ok _, Except.error _ => isFalse (fun he => Except.noConfusion he)
  | Except.error _, Except.ok _ => isFalse (fun he => Except.noConfusion he)
  | Except.error d, Except.error e =>
      if h : d = e then isTrue (by rw [h]) else isFalse (fun he => h (Except.error.inj he))

/-- `load_dataset` of `streamlit_app.py` (the spec's `load_series`):
`try: df = pd.read_csv(...); return df; except Exception: return None` —
every reading failure is absorbed into `None`, success returns the frame
unchanged. -/
def load_dataset (src : Option (List (List String))) : Option (List CsvRow) :=
  match read_csv src with
  | Except.ok df => some df
  | Except.error _ => none

/-- Python's `sub in z` substring test, used by the zone offset rule. -/
def hasSub (z sub : String) : Bool := decide (sub.toList <:+: z.toList)

/-- The per-zone constant offset of the fallback generator, line 143:
`3 if "Parking" in z or "Stadium" in z else -2 if "Quad" in z or
"Library" in z else 0`. -/
def zoneOffset (z : String) : ℚ :=
  if hasSub z "Parking" || hasSub z "Stadium" then 3
  else if hasSub z "Quad" || hasSub z "Library" then -2
  else 0

/-- Modelled from the spec: a zone name "signals high sun/heat exposure"
when it mentions parking or a stadium. -/
def signalsSunExposure (z : String) : Bool :=
  hasSub z "Parking" || hasSub z "Stadium"

/-- Modelled from the spec: a zone name "signals shade" when it mentions
green space, a quad, or a library. -/
def signalsShade (z : String) : Bool :=
  hasSub z "Green" || hasSub z "Quad" || hasSub z "Library"

/-- Python's `round(x, 1)`: one decimal place. The model rounds half up;
the exact tie-breaking mode of the float rounding is not observable by
any claim. -/
def round1 (x : ℚ) : ℚ := ((round (10 * x) : ℤ) : ℚ) / 10

/-- `ts.hour` of an instant counted in whole hours. -/
def hourOf (ts : Int) : Int := ts % 24

/-- `ts.dayofyear` of an instant counted in whole hours (1-based; leap
years abstracted away — no claim depends on the calendar). -/
def dayOfYear (ts : Int) : Int := ts / 24 % 365 + 1

/-- Oracles for the non-arithmetic ingredients of the fallback generator:
`math.sin` and `math.pi` (floating point transcendentals) and the two
`np.random.normal(0, 0.6)` draws per sample, indexed by zone and hour
offset. -/
structure GenEnv where
  sin : ℚ → ℚ
  pi : ℚ
  tempNoise : String → Nat → ℚ
  uvNoise : String → Nat → ℚ

/-- The body of the fallback generation loop, lines 140–146, for zone `z`
and hour offset `h`:
`ts = now - h`,
`base = 26 + 6*sin((ts.dayofyear % 365)/365 * 2*pi)`,
`hour_cycle = 6*sin((ts.hour - 9)/24*2*pi)`,
`temp = round(base + hour_cycle + offset + noise, 1)`,
`uv = max(0, round(9*sin((ts.hour - 9)/24*2*pi) + noise, 1))`. -/
def fallbackReading (env : GenEnv) (z : String) (now : Int) (h : Nat) : Reading :=
  let ts : Int := now - (h : Int)
  let base : ℚ := 26 + 6 * env.sin (((dayOfYear ts % 365 : ℤ) : ℚ) / 365 * 2 * env.pi)
  let hour_cycle : ℚ := 6 * env.sin ((((hourOf ts : ℤ) : ℚ) - 9) / 24 * 2 * env.pi)
  let temp : ℚ := round1 (base + hour_cycle + zoneOffset z + env.tempNoise z h)
  let uv : ℚ := max 0 (round1 (9 * env.sin ((((hourOf ts : ℤ) : ℚ) - 9) / 24 * 2 * env.pi)
    + env.uvNoise z h))
  Reading.mk ts z temp uv

/-- The spec's `generate_fallback_series`, lines 137–147 of the source:
for each catalog zone, one reading per whole hour stepping backward from
`now` (the source instantiates `hours := 24*3`). -/
def generate_fallback_series (env : GenEnv) (zones : List String) (hours : Nat)
    (now : Int) : List Reading :=
  zones.flatMap (fun z => (List.range hours).map (fun h => fallbackReading env z now h))

/-- A trivial oracle assignment (zero sine, zero noise), used to
instantiate generator theorems at concrete inputs. -/
def constEnv : GenEnv := GenEnv.mk (fun _ => 0) 0 (fun _ _ => 0) (fun _ _ => 0)

end ThermalTwin

namespace ThermalTwin

theorem lastMax_cons (z : String) (r : Reading) (s : List Reading) :
    lastMax z (r :: s) =
      match lastMax z s with
      | none => if r.zone == z then some r else none
      | some b =>
          if r.zone == z && decide (b.timestamp < r.timestamp) then some r
          else some b := rfl

theorem lastMax_cons_none (z : String) (r : Reading) (s : List Reading)
    (h : lastMax z s = none) :
    lastMax z (r :: s) = if r.zone == z then some r else none := by
  rw [lastMax_cons, h]

theorem lastMax_cons_some (z : String) (r : Reading) (s : List Reading) (b : Reading)
    (h : lastMax z s = some b) :
    lastMax z (r :: s) =
      if r.zone == z && decide (b.timestamp < r.timestamp) then some r
      else some b := by
  rw [lastMax_cons, h]

theorem getLast?_mem {α : Type} {l : List α} {a : α} (h : l.getLast? = some a) :
    a ∈ l := by
  rw [List.getLast?_eq_some_iff] at h
  rcases h with ⟨ys, rfl⟩
  simp

theorem mem_dropWhile_le (r : Reading) :
    ∀ L : List Reading, L.Sorted leTs →
      ∀ c ∈ L.dropWhile (fun b => decide ¬ leTs r b), leTs r c := by
  intro L
  induction L with
  | nil => intro _ c hc; simp at hc
  | cons x L ih =>
    intro hs c hc
    have hx : ∀ y ∈ L, leTs x y := fun y hy => List.rel_of_pairwise_cons hs hy
    have hs2 : L.Sorted leTs := hs.tail
    rw [List.dropWhile_cons] at hc
    by_cases hpx : leTs r x
    · have hb : (decide ¬ leTs r x) = false := by simp [hpx]
      rw [hb] at hc
      simp only [Bool.false_eq_true, if_false] at hc
      rcases List.mem_cons.mp hc with rfl | hc2
      · exact hpx
      · exact le_trans hpx (hx c hc2)
    · have hb : (decide ¬ leTs r x) = true := by simp [hpx]
      rw [hb] at hc
      simp only [if_true] at hc
      exact ih hs2 c hc

theorem groupby_last_eq_lastMax (z : String) (s : List Reading) :
    groupby_last s z = lastMax z s := by
  induction s with
  | nil => rfl
  | cons r s ih =>
    have hSorted : (List.insertionSort leTs s).Sorted leTs :=
      List.sorted_insertionSort leTs s
    have hsplit := List.orderedInsert_eq_take_drop leTs r (List.insertionSort leTs s)
    unfold groupby_last sort_values at ih ⊢
    rw [show List.insertionSort leTs (r :: s)
          = List.orderedInsert leTs r (List.insertionSort leTs s) from rfl, hsplit]
    set T := (List.insertionSort leTs s).takeWhile (fun b => decide ¬ leTs r b) with hT
    set D := (List.insertionSort leTs s).dropWhile (fun b => decide ¬ leTs r b) with hD
    have hTD : T ++ D = List.insertionSort leTs s :=
      List.takeWhile_append_dropWhile _ _
    rw [← hTD] at ih
    rw [List.filter_append, List.getLast?_append] at ih ⊢
    rw [List.filter_cons, lastMax_cons]
    by_cases hq : (r.zone == z) = true
    · rw [if_pos hq]
      rcases hDq : D.filter (fun r => r.zone == z) with _ | ⟨y, ys⟩
      · rw [hDq] at ih
        simp only [List.getLast?_nil, Option.or] at ih
        rw [hDq]
        rcases hX : (T.filter (fun r => r.zone == z)).getLast? with _ | b
        · have hLM : lastMax z s = none := ih.symm.trans hX
          rw [hX, hLM]
          simp [Option.or, hq]
        · have hLM : lastMax z s = some b := ih.symm.trans hX
          have hbT : b ∈ T := List.mem_of_mem_filter (getLast?_mem hX)
          have hble : ¬ leTs r b := by
            have := List.mem_takeWhile_imp hbT
            simpa using this
          have hblt : decide (b.timestamp < r.timestamp) = true := by
            simp only [leTs, not_le] at hble
            simpa using hble
          rw [hX, hLM]
          simp [Option.or, hq, hblt]
      · have hne : D.filter (fun r => r.zone == z) ≠ [] := by rw [hDq]; simp
        have hcons : (r :: D.filter (fun r => r.zone == z)).getLast?
            = (D.filter (fun r => r.zone == z)).getLast? := by
          rw [hDq]; exact List.getLast?_cons_cons
        rw [hcons]
        rcases hC : (D.filter (fun r => r.zone == z)).getLast? with _ | c
        · exact absurd (List.getLast?_eq_none_iff.mp hC) hne
        · rw [hC] at ih
          rw [hC]
          have hcD : c ∈ D := List.mem_of_mem_filter (getLast?_mem hC)
          have hrc : leTs r c := mem_dropWhile_le r _ hSorted c hcD
          have hnlt : decide (c.timestamp < r.timestamp) = false := by
            simpa using not_lt.mpr hrc
          have hLM : lastMax z s = some c := ih.symm.trans rfl
          rw [hLM]
          simp [Option.or, hnlt]
    · have hqf : (r.zone == z) = false := by simpa using hq
      rw [if_neg (by rw [hqf]; simp)]
      rw [ih]
      rcases hLM : lastMax z s with _ | b
      · simp [hqf]
      · simp [hqf]

theorem lastMax_eq_none_iff (z : String) (s : List Reading) :
    lastMax z s = none ↔ ∀ r ∈ s, r.zone ≠ z := by
  induction s with
  | nil => simp [lastMax]
  | cons r s ih =>
    constructor
    · intro h x hx hxz
      rcases hLM : lastMax z s with _ | c
      · rw [lastMax_cons_none z r s hLM] at h
        by_cases hz : (r.zone == z) = true
        · rw [if_pos hz] at h; exact Option.noConfusion h
        · rcases List.mem_cons.mp hx with rfl | hx2
          · exact hz (by simpa using hxz)
          · exact (ih.mp hLM) x hx2 hxz
      · rw [lastMax_cons_some z r s c hLM] at h
        split at h
        · exact Option.noConfusion h
        · exact Option.noConfusion h
    · intro h
      have h1 : lastMax z s = none :=
        ih.mpr (fun x hx => h x (List.mem_cons_of_mem r hx))
      rw [lastMax_cons_none z r s h1]
      have hz : (r.zone == z) = false := by
        simpa using h r (List.mem_cons_self r s)
      simp [hz]

theorem lastMax_spec (z : String) (s : List Reading) :
    ∀ b, lastMax z s = some b →
      b ∈ s ∧ b.zone = z ∧ ∀ x ∈ s, x.zone = z → x.timestamp ≤ b.timestamp := by
  induction s with
  | nil => intro b h; simp [lastMax] at h
  | cons r s ih =>
    intro b h
    rcases hLM : lastMax z s with _ | c
    · rw [lastMax_cons_none z r s hLM] at h
      by_cases hz : (r.zone == z) = true
      · rw [if_pos hz] at h
        obtain rfl : r = b := Option.some.inj h
        refine ⟨List.mem_cons_self _ _, by simpa using hz, ?_⟩
        intro x hx hxz
        rcases List.mem_cons.mp hx with rfl | hx2
        · exact le_refl _
        · exact absurd hxz ((lastMax_eq_none_iff z s).mp hLM x hx2)
      · rw [if_neg hz] at h; exact Option.noConfusion h
    · rw [lastMax_cons_some z r s c hLM] at h
      obtain ⟨hcmem, hcz, hcmax⟩ := ih c hLM
      by_cases hcond : (r.zone == z && decide (c.timestamp < r.timestamp)) = true
      · rw [if_pos hcond] at h
        obtain rfl : r = b := Option.some.inj h
        have hcond2 : (r.zone == z) = true ∧ c.timestamp < r.timestamp := by
          simpa using hcond
        have hz : (r.zone == z) = true := hcond2.1
        have hlt : c.timestamp < r.timestamp := hcond2.2
        refine ⟨List.mem_cons_self _ _, by simpa using hz, ?_⟩
        intro x hx hxz
        rcases List.mem_cons.mp hx with rfl | hx2
        · exact le_refl _
        · exact le_trans (hcmax x hx2 hxz) (le_of_lt hlt)
      · rw [if_neg hcond] at h
        obtain rfl : c = b := Option.some.inj h
        refine ⟨List.mem_cons_of_mem _ hcmem, hcz, ?_⟩
        intro x hx hxz
        rcases List.mem_cons.mp hx with rfl | hx2
        · have hz : (x.zone == z) = true := by simpa using hxz
          have hnlt : ¬ c.timestamp < x.timestamp := by
            intro hlt
            exact hcond (by simp [hz, hlt])
          exact not_lt.mp hnlt
        · exact hcmax x hx2 hxz

theorem lastMax_unique_max (z : String) (s : List Reading) (r : Reading)
    (hr : r ∈ s) (hz : r.zone = z)
    (hmax : ∀ x ∈ s, x.zone = z → x ≠ r → x.timestamp < r.timestamp) :
    lastMax z s = some r := by
  rcases hb : lastMax z s with _ | b
  · exact absurd hz ((lastMax_eq_none_iff z s).mp hb r hr)
  · obtain ⟨hbmem, hbz, hbmax⟩ := lastMax_spec z s b hb
    by_cases hbr : b = r
    · rw [hbr]
    · have h1 : b.timestamp < r.timestamp := hmax b hbmem hbz hbr
      have h2 : r.timestamp ≤ b.timestamp := hbmax r hr hz
      exact absurd h1 (not_lt.mpr h2)

theorem lastMax_filter (z : String) (P : Reading → Bool)
    (hP : ∀ x : Reading, x.zone = z → P x = true) :
    ∀ s : List Reading, lastMax z (s.filter P) = lastMax z s := by
  intro s
  induction s with
  | nil => rfl
  | cons r s ih =>
    rw [List.filter_cons]
    by_cases hz : (r.zone == z) = true
    · have hPr : P r = true := hP r (by simpa using hz)
      rw [if_pos hPr, lastMax_cons, lastMax_cons, ih]
    · by_cases hPr : P r = true
      · rw [if_pos hPr, lastMax_cons, lastMax_cons, ih]
      · rw [if_neg hPr, ih, lastMax_cons]
        have hzf : (r.zone == z) = false := by simpa using hz
        rcases hLM : lastMax z s with _ | c
        · simp [hzf]
        · simp [hzf]

theorem mkSnapshot_zone (s : List Reading) (z : String) :
    (mkSnapshot s z).zone = z := by
  unfold mkSnapshot
  cases hgl : groupby_last s z <;> rfl

theorem fallbackReading_zone (env : GenEnv) (z : String) (now : Int) (h : Nat) :
    (fallbackReading env z now h).zone = z := rfl

theorem fallbackReading_timestamp (env : GenEnv) (z : String) (now : Int) (h : Nat) :
    (fallbackReading env z now h).timestamp = now - (h : Int) := rfl

theorem fallbackReading_uv_nonneg (env : GenEnv) (z : String) (now : Int) (h : Nat) :
    0 ≤ (fallbackReading env z now h).uv :=
  le_max_left 0 _

theorem mem_generate (env : GenEnv) (zones : List String) (hours : Nat) (now : Int)
    (r : Reading) :
    r ∈ generate_fallback_series env zones hours now ↔
      ∃ z ∈ zones, ∃ h < hours, r = fallbackReading env z now h := by
  unfold generate_fallback_series
  rw [List.mem_flatMap]
  constructor
  · rintro ⟨z, hz, hr⟩
    rw [List.mem_map] at hr
    obtain ⟨h, hh, rfl⟩ := hr
    exact ⟨z, hz, h, List.mem_range.mp hh, rfl⟩
  · rintro ⟨z, hz, h, hh, rfl⟩
    exact ⟨z, hz, List.mem_map_of_mem _ (List.mem_range.mpr hh)⟩

theorem generate_length (env : GenEnv) (zones : List String) (hours : Nat) (now : Int) :
    (generate_fallback_series env zones hours now).length = hours * zones.length := by
  unfold generate_fallback_series
  rw [List.length_flatMap]
  have h : ∀ z ∈ zones,
      (List.length ∘ fun zz => (List.range hours).map (fun hh => fallbackReading env zz now hh)) z
        = Function.const String hours z := by
    intro z _
    simp [Function.const]
  rw [List.map_congr_left h, List.map_const, List.sum_replicate, smul_eq_mul, mul_comm]

theorem generate_filter_zone (env : GenEnv) (hours : Nat) (now : Int) :
    ∀ zones : List String, zones.Nodup → ∀ z ∈ zones,
      (generate_fallback_series env zones hours now).filter (fun r => r.zone == z)
        = (List.range hours).map (fun h => fallbackReading env z now h) := by
  intro zones
  induction zones with
  | nil => intro _ z hz; simp at hz
  | cons z0 zs ih =>
    intro hnd z hz
    have hz0nin : z0 ∉ zs := (List.nodup_cons.mp hnd).1
    have hndzs : zs.Nodup := (List.nodup_cons.mp hnd).2
    have hsplit : generate_fallback_series env (z0 :: zs) hours now
        = (List.range hours).map (fun h => fallbackReading env z0 now h)
          ++ generate_fallback_series env zs hours now := by
      unfold generate_fallback_series
      rw [List.flatMap_cons]
    rw [hsplit, List.filter_append]
    rcases List.mem_cons.mp hz with rfl | hzs
    · have h1 : ((List.range hours).map (fun h => fallbackReading env z now h)).filter
          (fun r => r.zone == z)
            = (List.range hours).map (fun h => fallbackReading env z now h) := by
        apply List.filter_eq_self.mpr
        intro r hr
        rw [List.mem_map] at hr
        obtain ⟨h, _, rfl⟩ := hr
        simp [fallbackReading_zone]
      have h2 : (generate_fallback_series env zs hours now).filter
          (fun r => r.zone == z) = [] := by
        apply List.filter_eq_nil_iff.mpr
        intro r hr
        rw [mem_generate] at hr
        obtain ⟨z2, hz2, h, _, rfl⟩ := hr
        have hne : z2 ≠ z := fun he => hz0nin (he ▸ hz2)
        simpa [fallbackReading_zone] using hne
      rw [h1, h2, List.append_nil]
    · have hne : z0 ≠ z := fun he => hz0nin (he ▸ hzs)
      have h1 : ((List.range hours).map (fun h => fallbackReading env z0 now h)).filter
          (fun r => r.zone == z) = [] := by
        apply List.filter_eq_nil_iff.mpr
        intro r hr
        rw [List.mem_map] at hr
        obtain ⟨h, _, rfl⟩ := hr
        simpa [fallbackReading_zone] using hne
      rw [h1, List.nil_append, ih hndzs z hzs]

end ThermalTwin

namespace ThermalTwin

/-- C3: `temp_status` (the spec's `classify`) is a total pure function with
`Hotspot` iff `t > 40`, `Medium` iff `36 < t ≤ 40`, `Safe` iff `t ≤ 36`;
in particular `classify 36 = Safe`, `classify 36.1 = Medium`,
`classify 40 = Medium`, `classify 40.1 = Hotspot`. -/
theorem temp_status_classifies :
    (∀ t : ℚ,
      ((temp_status t = "Hotspot") ↔ 40 < t) ∧
      ((temp_status t = "Medium") ↔ (36 < t ∧ t ≤ 40)) ∧
      ((temp_status t = "Safe") ↔ t ≤ 36)) ∧
    temp_status 36 = "Safe" ∧ temp_status 36.1 = "Medium" ∧
    temp_status 40 = "Medium" ∧ temp_status 40.1 = "Hotspot" := by
  refine ⟨fun t => ?_, ?_, ?_, ?_, ?_⟩
  · unfold temp_status
    split_ifs with h1 h2 <;>
      refine ⟨⟨fun he => ?_, fun hlt => ?_⟩, ⟨fun he => ?_, fun hlt => ?_⟩,
        ⟨fun he => ?_, fun hle => ?_⟩⟩ <;>
      first
        | rfl
        | linarith
        | (exfalso; revert he; decide)
        | (exact absurd hlt.2 (by linarith))
        | (exact ⟨h2, by linarith⟩)
        | (exfalso; linarith [hlt.1, hlt.2])
  · norm_num [temp_status]
  · norm_num [temp_status]
  · norm_num [temp_status]
  · norm_num [temp_status]

/-- C1: for every catalog and every reading series — empty, incomplete, or
containing unknown zones — `derive_snapshot` returns exactly one snapshot
per catalog zone, in catalog order, and a catalog zone with no reading
gets a snapshot with all data fields absent instead of an error. -/
theorem derive_snapshot_complete (s : List Reading) (zones : List String) :
    (derive_snapshot s zones).length = zones.length ∧
    (derive_snapshot s zones).map ZoneSnapshot.zone = zones ∧
    (∀ z ∈ zones, (∀ r ∈ s, r.zone ≠ z) →
      ZoneSnapshot.mk z none none none none ∈ derive_snapshot s zones) := by
  refine ⟨by simp [derive_snapshot], ?_, ?_⟩
  · rw [derive_snapshot, List.map_map]
    have h : ∀ z ∈ zones, (ZoneSnapshot.zone ∘ mkSnapshot s) z = id z := by
      intro z _
      simp only [Function.comp, id]
      exact mkSnapshot_zone s z
    rw [List.map_congr_left h, List.map_id]
  · intro z hz hno
    have habs : mkSnapshot s z = ZoneSnapshot.mk z none none none none := by
      unfold mkSnapshot
      rw [groupby_last_eq_lastMax, (lastMax_eq_none_iff z s).mpr hno]
    rw [derive_snapshot]
    exact habs ▸ List.mem_map_of_mem (mkSnapshot s) hz

/-- Witness for C1 at a concrete input: a two-zone catalog and a series
with a reading for zone `"A"` and one for the unknown zone `"C"`; the
catalog zone `"B"` has no reading and its snapshot has all fields absent. -/
theorem derive_snapshot_complete_witness :
    ZoneSnapshot.mk "B" none none none none ∈
      derive_snapshot [Reading.mk 10 "A" 1 2, Reading.mk 11 "C" 3 4] ["A", "B"] :=
  (derive_snapshot_complete [Reading.mk 10 "A" 1 2, Reading.mk 11 "C" 3 4]
    ["A", "B"]).2.2 "B" (by decide) (by decide)

/-- C2 counterexample: the snapshot is NOT independent of the arrival
order of the readings. Two series that are permutations of each other —
the same two readings for zone `"A"` with the same timestamp but
different temperatures, in the two arrival orders — produce different
snapshots, because the code breaks the timestamp tie by taking the last
row of the stably sorted group. -/
theorem derive_snapshot_tie_order_dependent :
    ([Reading.mk 10 "A" 1 0, Reading.mk 10 "A" 2 0] : List Reading).Perm
        [Reading.mk 10 "A" 2 0, Reading.mk 10 "A" 1 0] ∧
    derive_snapshot [Reading.mk 10 "A" 1 0, Reading.mk 10 "A" 2 0] ["A"] ≠
      derive_snapshot [Reading.mk 10 "A" 2 0, Reading.mk 10 "A" 1 0] ["A"] := by
  exact ⟨by decide, by decide⟩

/-- C2 (amended): for a series with at least one reading for a catalog
zone, the snapshot of that zone carries the temperature, uv and timestamp
of a reading of that zone whose timestamp is maximal in the group, chosen
deterministically (ties go to the later arrival); when the maximum
timestamp is attained by a unique reading, the snapshot carries exactly
that reading's values — and is then independent of arrival order, since
this characterisation depends only on membership. With tied maximal
timestamps the carried values can depend on arrival order. -/
theorem derive_snapshot_latest_max (s : List Reading) (z : String) :
    ((∃ r ∈ s, r.zone = z) →
      ∃ b ∈ s, b.zone = z ∧ (∀ x ∈ s, x.zone = z → x.timestamp ≤ b.timestamp) ∧
        mkSnapshot s z = ZoneSnapshot.mk z (some b.temp) (some b.uv)
          (some b.timestamp) (some (temp_status b.temp))) ∧
    (∀ r ∈ s, r.zone = z →
      (∀ x ∈ s, x.zone = z → x ≠ r → x.timestamp < r.timestamp) →
      mkSnapshot s z = ZoneSnapshot.mk z (some r.temp) (some r.uv)
        (some r.timestamp) (some (temp_status r.temp))) := by
  constructor
  · rintro ⟨r0, hr0, hz0⟩
    rcases hb : lastMax z s with _ | b
    · exact absurd hz0 ((lastMax_eq_none_iff z s).mp hb r0 hr0)
    · obtain ⟨hbmem, hbz, hbmax⟩ := lastMax_spec z s b hb
      refine ⟨b, hbmem, hbz, hbmax, ?_⟩
      unfold mkSnapshot
      rw [groupby_last_eq_lastMax, hb]
  · intro r hr hz hmax
    have h := lastMax_unique_max z s r hr hz hmax
    unfold mkSnapshot
    rw [groupby_last_eq_lastMax, h]

/-- Witness for C2 (amended) at a concrete input: zone `"A"` has two
readings with distinct timestamps; the snapshot carries the values of the
unique most recent one. -/
theorem derive_snapshot_latest_max_witness :
    mkSnapshot [Reading.mk 9 "A" 1 1, Reading.mk 10 "A" 2 3] "A" =
      ZoneSnapshot.mk "A" (some 2) (some 3) (some 10)
        (some (temp_status 2)) :=
  (derive_snapshot_latest_max [Reading.mk 9 "A" 1 1, Reading.mk 10 "A" 2 3] "A").2
    (Reading.mk 10 "A" 2 3) (by decide) (by decide) (by decide)

/-- C5: readings whose zone is not in the catalog produce no snapshot
entry (every emitted snapshot is for a catalog zone) and have no effect
on the snapshots of the catalog zones (removing them leaves the derived
snapshot unchanged). -/
theorem derive_snapshot_drops_unknown_zones (s : List Reading) (zones : List String) :
    (∀ snap ∈ derive_snapshot s zones, snap.zone ∈ zones) ∧
    derive_snapshot (s.filter (fun r => zones.contains r.zone)) zones
      = derive_snapshot s zones := by
  constructor
  · intro snap hsnap
    rw [derive_snapshot] at hsnap
    obtain ⟨z, hz, rfl⟩ := List.mem_map.mp hsnap
    rw [mkSnapshot_zone]
    exact hz
  · unfold derive_snapshot
    apply List.map_congr_left
    intro z hz
    have hP : ∀ x : Reading, x.zone = z → (zones.contains x.zone) = true := by
      intro x hx
      rw [hx]
      simpa using hz
    unfold mkSnapshot
    rw [groupby_last_eq_lastMax, groupby_last_eq_lastMax,
      lastMax_filter z (fun r => zones.contains r.zone) hP s]

/-- Witness for C5 at a concrete input: a series with a reading for the
unknown zone `"X"`; the emitted snapshot belongs to the catalog, and
dropping the unknown-zone reading leaves the snapshot unchanged. -/
theorem derive_snapshot_drops_unknown_zones_witness :
    (mkSnapshot [Reading.mk 10 "A" 1 2, Reading.mk 11 "X" 3 4] "A").zone ∈
        (["A"] : List String) ∧
    derive_snapshot ([Reading.mk 10 "A" 1 2, Reading.mk 11 "X" 3 4].filter
        (fun r => (["A"] : List String).contains r.zone)) ["A"]
      = derive_snapshot [Reading.mk 10 "A" 1 2, Reading.mk 11 "X" 3 4] ["A"] :=
  ⟨(derive_snapshot_drops_unknown_zones
      [Reading.mk 10 "A" 1 2, Reading.mk 11 "X" 3 4] ["A"]).1
      (mkSnapshot [Reading.mk 10 "A" 1 2, Reading.mk 11 "X" 3 4] "A") (by decide),
   (derive_snapshot_drops_unknown_zones
      [Reading.mk 10 "A" 1 2, Reading.mk 11 "X" 3 4] ["A"]).2⟩

/-- C4: `load_dataset` (the spec's `load_series`) never propagates a
failure to the caller: a missing file loads as `none`, every parse
failure of `read_csv` is absorbed into the explicit absent result `none`
(the source-unavailable signal), and a successful parse is returned to
the caller unchanged. -/
theorem load_dataset_failsoft :
    load_dataset none = none ∧
    (∀ src e, read_csv src = Except.error e → load_dataset src = none) ∧
    (∀ src df, read_csv src = Except.ok df → load_dataset src = some df) := by
  refine ⟨rfl, ?_, ?_⟩
  · intro src e h
    unfold load_dataset
    rw [h]
  · intro src df h
    unfold load_dataset
    rw [h]

/-- Witness for C4 at concrete inputs: a structurally malformed file (one
row with a single field) fails to parse and loads as `none`; a well-formed
file loads as its parsed rows. -/
theorem load_dataset_failsoft_witness :
    load_dataset (some [["x"]]) = none ∧
    load_dataset (some [["100", "A", "41", "5"]]) =
      some [CsvRow.mk (Cell.num 100) "A" (Cell.num 41) (Cell.num 5)] :=
  ⟨load_dataset_failsoft.2.1 (some [["x"]]) "ParserError" (by decide),
   load_dataset_failsoft.2.2 (some [["100", "A", "41", "5"]])
     [CsvRow.mk (Cell.num 100) "A" (Cell.num 41) (Cell.num 5)] (by decide)⟩

/-- C8 counterexample: a two-row file whose second row has a malformed
`temp` field. `load_dataset` keeps BOTH rows — the malformed row is not
dropped; the temp column degrades to strings instead — and a file in
which EVERY row has a malformed temp field still loads rather than being
treated as source-unavailable. -/
theorem load_dataset_keeps_malformed_rows :
    load_dataset (some [["100", "A", "41", "5"], ["101", "A", "abc", "4"]]) =
      some [CsvRow.mk (Cell.num 100) "A" (Cell.str "41") (Cell.num 5),
            CsvRow.mk (Cell.num 101) "A" (Cell.str "abc") (Cell.num 4)] ∧
    (load_dataset (some [["100", "A", "41", "5"], ["101", "A", "abc", "4"]])).map
        List.length ≠ some 1 ∧
    (load_dataset (some [["100", "A", "abc", "4"]])).isSome = true := by
  exact ⟨by decide, by decide, by decide⟩

/-- C8 (amended): `load_dataset` never drops individual rows. For every
structurally well-formed file (each row carrying the header's four
fields), the load succeeds with exactly one output row per input row, no
matter how many rows have malformed numeric fields — such fields only
degrade the affected column to strings. The load signals
source-unavailable only for a missing file or a structurally malformed
row, never based on how many rows are numerically malformed. -/
theorem load_dataset_row_count (rows : List (List String))
    (h : ∀ r ∈ rows, r.length = 4) :
    ∃ df, load_dataset (some rows) = some df ∧ df.length = rows.length := by
  have hall : rows.all (fun r => r.length == 4) = true := by
    rw [List.all_eq_true]
    intro r hr
    simpa using h r hr
  obtain ⟨df, hdf, hlen⟩ :
      ∃ df, read_csv (some rows) = Except.ok df ∧ df.length = rows.length := by
    refine ⟨rows.map (fun r =>
        CsvRow.mk (toCell (colNumeric (rows.map (fun r => r.getD 0 ""))) (r.getD 0 ""))
          (r.getD 1 "")
          (toCell (colNumeric (rows.map (fun r => r.getD 2 ""))) (r.getD 2 ""))
          (toCell (colNumeric (rows.map (fun r => r.getD 3 ""))) (r.getD 3 ""))),
      ?_, List.length_map _ _⟩
    simp only [read_csv]
    rw [if_pos hall]
  refine ⟨df, ?_, hlen⟩
  unfold load_dataset
  rw [hdf]

/-- Witness for C8 (amended) at a concrete input: the two-row file with a
malformed temp cell in its second row loads with both rows kept. -/
theorem load_dataset_row_count_witness :
    ∃ df, load_dataset (some [["100", "A", "41", "5"], ["101", "A", "abc", "4"]])
        = some df ∧ df.length = 2 :=
  load_dataset_row_count [["100", "A", "41", "5"], ["101", "A", "abc", "4"]]
    (by decide)

/-- C6: for every oracle assignment, catalog (without duplicate names),
hour count and reference instant, the fallback generator produces exactly
`hours * len(zones)` readings; each zone gets exactly `hours` readings
whose timestamps are exactly the whole hours stepping backward from `now`
(inclusive), pairwise distinct; and every generated timestamp `ts`
satisfies `now - hours < ts ≤ now`. -/
theorem generate_fallback_series_shape (env : GenEnv) (zones : List String)
    (hours : Nat) (now : Int) (hnd : zones.Nodup) :
    (generate_fallback_series env zones hours now).length = hours * zones.length ∧
    (∀ z ∈ zones,
      ((generate_fallback_series env zones hours now).filter
          (fun r => r.zone == z)).map Reading.timestamp
        = (List.range hours).map (fun h : Nat => now - (h : Int)) ∧
      (((generate_fallback_series env zones hours now).filter
          (fun r => r.zone == z)).map Reading.timestamp).Nodup ∧
      ((generate_fallback_series env zones hours now).filter
          (fun r => r.zone == z)).length = hours) ∧
    (∀ r ∈ generate_fallback_series env zones hours now,
      now - (hours : Int) < r.timestamp ∧ r.timestamp ≤ now) := by
  refine ⟨generate_length env zones hours now, ?_, ?_⟩
  · intro z hz
    rw [generate_filter_zone env hours now zones hnd z hz]
    have hmap : ((List.range hours).map (fun h => fallbackReading env z now h)).map
        Reading.timestamp = (List.range hours).map (fun h : Nat => now - (h : Int)) := by
      rw [List.map_map]
      apply List.map_congr_left
      intro h _
      exact fallbackReading_timestamp env z now h
    refine ⟨hmap, ?_, by simp⟩
    rw [hmap]
    have hinj : Function.Injective (fun h : Nat => now - (h : Int)) := by
      intro a b hab
      simp only at hab
      omega
    exact (List.nodup_range hours).map hinj
  · intro r hr
    rw [mem_generate] at hr
    obtain ⟨z, _, h, hh, rfl⟩ := hr
    rw [fallbackReading_timestamp]
    omega

/-- Witness for C6 at a concrete input: a duplicate-free two-zone catalog
with two hours of data gives four readings, per-zone timestamps
`[5, 4]`, distinct and in bounds. -/
theorem generate_fallback_series_shape_witness :
    (["A", "B"] : List String).Nodup ∧
    (generate_fallback_series constEnv ["A", "B"] 2 5).length = 2 * 2 :=
  ⟨by decide, (generate_fallback_series_shape constEnv ["A", "B"] 2 5 (by decide)).1⟩

/-- C7: every reading produced by the fallback generator has a
non-negative uv index, for every zone, hour offset and oracle (sine and
noise) assignment: the generated uv value is clipped at zero by the
`max(0, ...)` in the source. -/
theorem generate_fallback_series_uv_nonneg (env : GenEnv) (zones : List String)
    (hours : Nat) (now : Int) :
    (generate_fallback_series env zones hours now).all
      (fun r => decide (0 ≤ r.uv)) = true := by
  rw [List.all_eq_true]
  intro r hr
  rw [mem_generate] at hr
  obtain ⟨z, _, h, _, rfl⟩ := hr
  exact decide_eq_true (fallbackReading_uv_nonneg env z now h)

/-- C9: in the fallback generator, the per-zone constant temperature
offset is positive for every catalog zone whose name signals high
sun/heat exposure (parking, stadium), negative for every catalog zone
whose name signals shade (green, quad, library), and zero for every
other catalog zone. -/
theorem zoneOffset_matches_name_signal (z : String) (hz : z ∈ ZONES) :
    (signalsSunExposure z = true → 0 < zoneOffset z) ∧
    (signalsShade z = true → zoneOffset z < 0) ∧
    (signalsSunExposure z = false → signalsShade z = false → zoneOffset z = 0) := by
  fin_cases hz <;> decide

/-- Witness for C9 at a concrete catalog zone: `"Main Parking Lot"`
signals sun exposure and its offset is positive. -/
theorem zoneOffset_matches_name_signal_witness :
    0 < zoneOffset "Main Parking Lot" :=
  (zoneOffset_matches_name_signal "Main Parking Lot" (by decide)).1 (by decide)

/-- C10: the display colour agrees with the status classification:
green iff `Safe`, yellow iff `Medium`, and one of the two hotspot
colours iff `Hotspot`, with deep red exactly on the undocumented
severity tier `t > 45` inside the hotspot band. -/
theorem status_color_matches_status :
    ∀ t : ℚ,
      ((status_color t = "#2E7D32") ↔ temp_status t = "Safe") ∧
      ((status_color t = "#ffd54f") ↔ temp_status t = "Medium") ∧
      (((status_color t = "#ff6b00") ∨ (status_color t = "#b21010")) ↔
        temp_status t = "Hotspot") ∧
      ((status_color t = "#b21010") ↔ 45 < t) ∧
      ((status_color t = "#ff6b00") ↔ (40 < t ∧ t ≤ 45)) := by
  intro t
  unfold status_color temp_status
  split_ifs with h1 h2 h3 <;>
    refine ⟨⟨fun he => ?_, fun he => ?_⟩, ⟨fun he => ?_, fun he => ?_⟩,
      ⟨fun he => ?_, fun he => ?_⟩, ⟨fun he => ?_, fun he => ?_⟩,
      ⟨fun he => ?_, fun he => ?_⟩⟩ <;>
    first
      | rfl
      | linarith
      | (exfalso; revert he; decide)
      | (exact absurd he (by decide))
      | (rcases he with he | he <;> revert he <;> decide)
      | (exact ⟨by linarith, by linarith⟩)
      | (exact Or.inl rfl)
      | (exact Or.inr rfl)
      | (exfalso; linarith [he.1, he.2])
      | (exfalso; exact absurd he (by simp))

end ThermalTwin
